import Mathlib

/-!
Verification of the attribution / ranking / aggregation core of the
loan-default-prediction service (`api/app.py`, `src/explainability.py`).

The embedding models machine floats as exact rationals, Python dictionaries
built from `zip` as association lists in insertion order, Python's stable
`sorted(..., key=lambda x: abs(x[1]), reverse=True)` as a stable descending
insertion sort (stable descending sorts by a fixed key are unique, so any
stable implementation agrees with CPython's Timsort), `round(x, d)` as exact
round-half-to-even at `d` decimal digits, and Python exceptions surfaced as
HTTP errors by `Except` values.
-/

namespace LoanXAI

open scoped List

/-- Absolute value on ℚ, written so that it evaluates by kernel reduction;
`qAbs_eq_abs` identifies it with Mathlib's `|·|`. -/
def qAbs (x : ℚ) : ℚ := if x < 0 then -x else x

theorem qAbs_eq_abs (x : ℚ) : qAbs x = |x| := by
  by_cases h : x < 0
  · rw [qAbs, if_pos h, abs_of_neg h]
  · rw [qAbs, if_neg h, abs_of_nonneg (not_lt.mp h)]

/-- Round a rational to the nearest integer, halves to the even neighbour
(the semantics of Python's builtin `round` on exact values).  Stated on the
numerator / denominator pair so that it evaluates; `rndHalfEven_eq` states it
in ordinary field arithmetic. -/
def rndHalfEven (x : ℚ) : ℤ :=
  let f := x.floor
  let r := x.num - f * x.den
  if 2 * r < (x.den : ℤ) then f
  else if (x.den : ℤ) < 2 * r then f + 1
  else if Even f then f else f + 1

theorem int_floor_eq_rat_floor (x : ℚ) : ⌊x⌋ = x.floor := by
  rw [Rat.floor_def, Rat.floor_def']

theorem sub_floor_eq (x : ℚ) :
    x - ⌊x⌋ = ((x.num - x.floor * x.den : ℤ) : ℚ) / (x.den : ℚ) := by
  have hden : (0 : ℚ) < (x.den : ℚ) := by exact_mod_cast x.den_pos
  have hx : x * (x.den : ℚ) = (x.num : ℚ) :=
    ((div_eq_iff (ne_of_gt hden)).mp (Rat.num_div_den x)).symm
  rw [int_floor_eq_rat_floor, eq_div_iff (ne_of_gt hden), sub_mul, hx]
  push_cast
  ring

theorem rndHalfEven_eq (x : ℚ) :
    rndHalfEven x =
      if x - ⌊x⌋ < (1 : ℚ)/2 then ⌊x⌋
      else if (1 : ℚ)/2 < x - ⌊x⌋ then ⌊x⌋ + 1
      else if Even ⌊x⌋ then ⌊x⌋ else ⌊x⌋ + 1 := by
  have hden : (0 : ℚ) < (x.den : ℚ) := by exact_mod_cast x.den_pos
  have h1 : (x - ⌊x⌋ < (1 : ℚ)/2) ↔ 2 * (x.num - x.floor * x.den) < (x.den : ℤ) := by
    rw [sub_floor_eq, div_lt_div_iff₀ hden (by norm_num : (0 : ℚ) < 2), one_mul,
      ← @Int.cast_lt ℚ]
    push_cast
    constructor <;> intro h <;> linarith
  have h2 : ((1 : ℚ)/2 < x - ⌊x⌋) ↔ (x.den : ℤ) < 2 * (x.num - x.floor * x.den) := by
    rw [sub_floor_eq, div_lt_div_iff₀ (by norm_num : (0 : ℚ) < 2) hden, one_mul,
      ← @Int.cast_lt ℚ]
    push_cast
    constructor <;> intro h <;> linarith
  rw [rndHalfEven]
  simp only [h1, h2]
  simp only [int_floor_eq_rat_floor]

/-- Exact product `x * 10 ^ d`, in evaluating form. -/
def qScale (d : ℕ) (x : ℚ) : ℚ := mkRat (x.num * 10 ^ d) x.den

theorem qScale_eq (d : ℕ) (x : ℚ) : qScale d x = x * 10 ^ d := by
  rw [qScale, Rat.mkRat_eq_div]
  push_cast
  rw [mul_div_right_comm, Rat.num_div_den]

/-- Python's `round(x, d)`: round half to even at `d` decimal digits. -/
def pyRound (d : ℕ) (x : ℚ) : ℚ := mkRat (rndHalfEven (qScale d x)) (10 ^ d)

theorem pyRound_eq (d : ℕ) (x : ℚ) :
    pyRound d x = (rndHalfEven (x * 10 ^ d) : ℚ) / 10 ^ d := by
  rw [pyRound, Rat.mkRat_eq_div, qScale_eq]
  push_cast
  rfl

/-- `round(x, 4)` used for displayed contributions and probabilities. -/
def round4 : ℚ → ℚ := pyRound 4

/-- `round(x, 2)` used for the batch approval rate. -/
def round2 : ℚ → ℚ := pyRound 2

/-- One step of the stable descending-by-absolute-value sort: insert `x`
after every element whose key is strictly larger, before the first element
whose key is `≤ |x.2|`.  This is the unique stable placement for
`sorted(items, key=lambda p: abs(p[1]), reverse=True)`
(`api/app.py` lines 215-217 and 283-285, `src/explainability.py` 164-166). -/
def insertAbsDesc (x : String × ℚ) : List (String × ℚ) → List (String × ℚ)
  | [] => [x]
  | y :: ys => if qAbs x.2 < qAbs y.2 then y :: insertAbsDesc x ys else x :: y :: ys

theorem insertAbsDesc_cons (x y : String × ℚ) (ys : List (String × ℚ)) :
    insertAbsDesc x (y :: ys) =
      if |x.2| < |y.2| then y :: insertAbsDesc x ys else x :: y :: ys := by
  simp only [insertAbsDesc, qAbs_eq_abs]

/-- Stable sort by absolute contribution, descending. -/
def sortAbsDesc : List (String × ℚ) → List (String × ℚ)
  | [] => []
  | x :: xs => insertAbsDesc x (sortAbsDesc xs)

theorem perm_insertAbsDesc (x : String × ℚ) (l : List (String × ℚ)) :
    insertAbsDesc x l ~ x :: l := by
  induction l with
  | nil => simp [insertAbsDesc]
  | cons y ys ih =>
      by_cases h : |x.2| < |y.2|
      · rw [insertAbsDesc_cons, if_pos h]
        exact (List.Perm.cons y ih).trans (List.Perm.swap x y ys)
      · rw [insertAbsDesc_cons, if_neg h]

theorem perm_sortAbsDesc (l : List (String × ℚ)) : sortAbsDesc l ~ l := by
  induction l with
  | nil => simp [sortAbsDesc]
  | cons x xs ih =>
      exact (perm_insertAbsDesc x (sortAbsDesc xs)).trans (List.Perm.cons x ih)

theorem mem_insertAbsDesc {z x : String × ℚ} {l : List (String × ℚ)} :
    z ∈ insertAbsDesc x l ↔ z = x ∨ z ∈ l := by
  constructor
  · intro h
    have := (perm_insertAbsDesc x l).mem_iff.mp h
    simpa using this
  · intro h
    exact (perm_insertAbsDesc x l).mem_iff.mpr (by simpa using h)

theorem sorted_insertAbsDesc {x : String × ℚ} {l : List (String × ℚ)}
    (hl : List.Sorted (fun a b : String × ℚ => |b.2| ≤ |a.2|) l) :
    List.Sorted (fun a b : String × ℚ => |b.2| ≤ |a.2|) (insertAbsDesc x l) := by
  induction l with
  | nil => simp [insertAbsDesc]
  | cons y ys ih =>
      rw [List.sorted_cons] at hl
      by_cases h : |x.2| < |y.2|
      · rw [insertAbsDesc_cons, if_pos h, List.sorted_cons]
        refine ⟨?_, ih hl.2⟩
        intro z hz
        rcases mem_insertAbsDesc.mp hz with hz | hz
        · exact hz ▸ le_of_lt h
        · exact hl.1 z hz
      · rw [insertAbsDesc_cons, if_neg h, List.sorted_cons]
        refine ⟨?_, List.sorted_cons.mpr hl⟩
        intro z hz
        rcases List.mem_cons.mp hz with hz | hz
        · exact hz ▸ not_lt.mp h
        · exact le_trans (hl.1 z hz) (not_lt.mp h)

theorem sorted_sortAbsDesc (l : List (String × ℚ)) :
    List.Sorted (fun a b : String × ℚ => |b.2| ≤ |a.2|) (sortAbsDesc l) := by
  induction l with
  | nil => simp [sortAbsDesc]
  | cons x xs ih => exact sorted_insertAbsDesc ih

theorem filter_insertAbsDesc (x : String × ℚ) (l : List (String × ℚ)) (c : ℚ) :
    (insertAbsDesc x l).filter (fun p => |p.2| = c) =
      (x :: l).filter (fun p => |p.2| = c) := by
  induction l with
  | nil => rfl
  | cons y ys ih =>
      by_cases h : |x.2| < |y.2|
      · rw [insertAbsDesc_cons, if_pos h]
        by_cases hy : |y.2| = c
        · by_cases hx : |x.2| = c
          · exact absurd (hx.trans hy.symm) (ne_of_lt h)
          · simp only [List.filter_cons, hy, hx]
            simp only [decide_eq_true_eq] at *
            simp [hy, hx, ih, List.filter_cons]
        · simp only [List.filter_cons]
          simp only [decide_eq_true_eq] at *
          simp [hy, ih, List.filter_cons]
      · rw [insertAbsDesc_cons, if_neg h]

/-- Stability of the sort: restricting to any fixed absolute magnitude, the
sorted list lists those elements in exactly their original order. -/
theorem filter_sortAbsDesc (l : List (String × ℚ)) (c : ℚ) :
    (sortAbsDesc l).filter (fun p => |p.2| = c) = l.filter (fun p => |p.2| = c) := by
  induction l with
  | nil => rfl
  | cons x xs ih =>
      rw [sortAbsDesc, filter_insertAbsDesc, List.filter_cons, List.filter_cons, ih]

/-- A displayed top factor (`api/app.py` lines 219-223 / 287-291):
feature name, contribution rounded to 4 decimal places, and a sign label. -/
structure RankedFactor where
  feature : String
  contribution : ℚ
  impact : String
deriving DecidableEq

/-- Build one displayed factor from an unrounded pair, exactly as the dict
literal in `api/app.py` lines 219-223 does. -/
def mkFactor (p : String × ℚ) : RankedFactor :=
  { feature := p.1
    contribution := round4 p.2
    impact := if 0 < p.2 then "Positive" else "Negative" }

/-- The ranked (still unrounded) pairs:
`sorted(shap_contribution.items(), key=lambda x: abs(x[1]), reverse=True)[:k]`
with `k = 5` in the source. -/
def rankTop (attr : List (String × ℚ)) (k : ℕ) : List (String × ℚ) :=
  (sortAbsDesc attr).take k

/-- The `top_factors` payload: rank first, round for display afterwards. -/
def topFactors (attr : List (String × ℚ)) (k : ℕ) : List RankedFactor :=
  (rankTop attr k).map mkFactor

/-- The SHAP output for the single submitted sample: `shap_values[0]` when the
array is 2-dimensional, or the list of per-class attribution rows of sample 0
when it is 3-dimensional (the class axis convention stated in the spec). -/
inductive ShapOut where
  | flat (vals : List ℚ)
  | perClass (rows : List (List ℚ))
deriving DecidableEq

/-- The per-feature row the code reads: `shap_values[0]` in the flat case,
`shap_values[0][0]` (the index-0 class slice) in the per-class case. -/
def shapRowOf : ShapOut → List ℚ
  | .flat vals => vals
  | .perClass rows => rows.headD []

/-- The raw attribution dict of `api/app.py` lines 208-212:
`{k: float(v) for k, v in zip(feature_names, ...)}`, kept in insertion order. -/
def mkContributions (names : List String) (s : ShapOut) : List (String × ℚ) :=
  names.zip (shapRowOf s)

/-- The error taxonomy of spec §7, as surfaced at the serving boundary. -/
inductive ApiError where
  | modelUnavailable
  | featureMismatch
  | invalidK
  | internalError
deriving DecidableEq

/-- The frozen capabilities loaded at process start: feature layout, the
fitted preprocessing transform, the model's label / probability outputs and
the raw SHAP values for a transformed vector. -/
structure ModelCtx (α : Type) where
  nFeatures : ℕ
  featureNames : List String
  transform : α → List ℚ
  predictLabel : List ℚ → ℤ
  predictProba : List ℚ → ℚ
  shapRaw : List ℚ → ShapOut

/-- Modelled from the spec: the SHAP computation itself lives in the external
`shap` library, not in this repository; per §4.1 and §7 it fails with a
feature-mismatch attribution error when the vector's dimensionality disagrees
with the ensemble's trained feature count, and otherwise yields the raw
attribution values. -/
def shapCompute {α : Type} (ctx : ModelCtx α) (v : List ℚ) : Except ApiError ShapOut :=
  if v.length = ctx.nFeatures then .ok (ctx.shapRaw v) else .error .featureMismatch

/-- The successful payload of `/predict` (fields the claims talk about). -/
structure SingleResponse where
  prediction : String
  probability : ℚ
  contributions : List (String × ℚ)
  topFactors : List RankedFactor
deriving DecidableEq

/-- The `/predict` handler body (`api/app.py` lines 188-236): transform,
predict, SHAP, build the contribution dict, rank the top 5, round for
display; any exception becomes an HTTP error. -/
def predictHandler {α : Type} (ctx : ModelCtx α) (a : α) : Except ApiError SingleResponse :=
  let processed := ctx.transform a
  let pLabel := ctx.predictLabel processed
  let prob := ctx.predictProba processed
  match shapCompute ctx processed with
  | .error e => .error e
  | .ok sv =>
      let contribs := mkContributions ctx.featureNames sv
      .ok { prediction := if pLabel = 1 then "Approved" else "Rejected"
            probability := round4 prob
            contributions := contribs
            topFactors := topFactors contribs 5 }

/-- One row of the `/batch_predict` result list (`api/app.py` 293-298). -/
structure BatchRecord where
  applicationId : ℕ
  prediction : String
  probability : ℚ
  topFactors : List RankedFactor
deriving DecidableEq

/-- One iteration of the `/batch_predict` loop (`api/app.py` 256-298): the
same transform / predict / SHAP / rank / round steps, duplicated in the
source rather than shared with `/predict`. -/
def processRow {α : Type} (ctx : ModelCtx α) (idx : ℕ) (a : α) : Except ApiError BatchRecord :=
  let processed := ctx.transform a
  let pLabel := ctx.predictLabel processed
  let prob := ctx.predictProba processed
  match shapCompute ctx processed with
  | .error e => .error e
  | .ok sv =>
      let contribs := mkContributions ctx.featureNames sv
      .ok { applicationId := idx + 1
            prediction := if pLabel = 1 then "Approved" else "Rejected"
            probability := round4 prob
            topFactors := topFactors contribs 5 }

/-- The `for idx, app in enumerate(...)` loop: a raised exception on any row
aborts the whole loop, so the row results exist only if every row succeeded. -/
def batchLoop {α : Type} (ctx : ModelCtx α) : ℕ → List α → Except ApiError (List BatchRecord)
  | _, [] => .ok []
  | idx, a :: rest =>
      match processRow ctx idx a with
      | .error e => .error e
      | .ok r =>
          match batchLoop ctx (idx + 1) rest with
          | .error e => .error e
          | .ok rs => .ok (r :: rs)

/-- The `/batch_predict` response (`api/app.py` 308-315). -/
structure BatchResponse where
  predictions : List BatchRecord
  totalProcessed : ℕ
  approved : ℕ
  rejected : ℕ
  approvalRatePercent : ℚ
deriving DecidableEq

/-- The `/batch_predict` handler (`api/app.py` 245-321).  The summary divides
by `len(results)` with no guard, so an empty batch raises `ZeroDivisionError`,
which the `except` clause converts to an HTTP 500 — modelled as
`ApiError.internalError`. -/
def batchPredict {α : Type} (ctx : ModelCtx α) (apps : List α) : Except ApiError BatchResponse :=
  match batchLoop ctx 0 apps with
  | .error e => .error e
  | .ok results =>
      let approved := results.countP (fun r => r.prediction == "Approved")
      let rejected := results.countP (fun r => r.prediction == "Rejected")
      if results.length = 0 then .error .internalError
      else
        .ok { predictions := results
              totalProcessed := results.length
              approved := approved
              rejected := rejected
              approvalRatePercent := round2 ((approved : ℚ) / results.length * 100) }

/-- `ModelExplainer.get_feature_contributions` (`src/explainability.py`
153-168): build the name → value dict in feature order, then re-build it
sorted by absolute value, descending. -/
def getFeatureContributions (names : List String) (row : List ℚ) : List (String × ℚ) :=
  sortAbsDesc (names.zip row)

/-- Modelled from the spec: §4.2's `ContributionRanker.rank(attribution, k)`
rejects `k ≤ 0` with `InvalidK`; the API code inlines the ranking with `k`
fixed to 5 and contains no `k` validation, so the validation is taken from
the spec's contract while the ranking body is the code's. -/
def rank (attr : List (String × ℚ)) (k : ℤ) : Except ApiError (List RankedFactor) :=
  if k ≤ 0 then .error .invalidK else .ok (topFactors attr k.toNat)

/-- Modelled from the spec: the attribution arithmetic runs inside the
external `shap.TreeExplainer`, which is not part of this repository.  §4.1
asks for an exact, tree-structure-aware additive attribution over an ensemble
of decision trees; the following model realises one.  A regression tree
carries a value at each leaf, and each internal node carries the split
feature, the threshold, and the left-branch weight used for the baseline
expectation. -/
inductive DTree where
  | leaf (v : ℚ)
  | node (f : ℕ) (thr : ℚ) (w : ℚ) (l r : DTree)
deriving DecidableEq

/-- Evaluate a tree on a feature vector (raw model output of one tree). -/
def treeEval : DTree → (ℕ → ℚ) → ℚ
  | .leaf v, _ => v
  | .node f thr _ l r, x => if x f ≤ thr then treeEval l x else treeEval r x

/-- Baseline expectation of a tree: the weighted average of its leaves over
the training background, folded through the per-node branch weights. -/
def treeExp : DTree → ℚ
  | .leaf v => v
  | .node _ _ w l r => w * treeExp l + (1 - w) * treeExp r

/-- The decision path of `x` through `t`, as a list of
(split feature, change of expected value when taking that branch) pairs. -/
def pathDeltas : DTree → (ℕ → ℚ) → List (ℕ × ℚ)
  | .leaf _, _ => []
  | .node f thr w l r, x =>
      if x f ≤ thr then
        (f, treeExp l - treeExp (.node f thr w l r)) :: pathDeltas l x
      else
        (f, treeExp r - treeExp (.node f thr w l r)) :: pathDeltas r x

/-- Per-feature contribution of one tree: the sum of the expectation changes
at the decision-path splits on that feature. -/
def featAttr (t : DTree) (x : ℕ → ℚ) (i : ℕ) : ℚ :=
  (((pathDeltas t x).filter (fun p => p.1 == i)).map Prod.snd).sum

/-- Every split feature of the tree lies below the feature count `n`. -/
def featBound : DTree → ℕ → Bool
  | .leaf _, _ => true
  | .node f _ _ l r, n => decide (f < n) && featBound l n && featBound r n

/-- Raw output of the ensemble: the sum of its trees' outputs. -/
def ensembleEval (ts : List DTree) (x : ℕ → ℚ) : ℚ :=
  (ts.map (fun t => treeEval t x)).sum

/-- Baseline expectation of the ensemble. -/
def ensembleExp (ts : List DTree) : ℚ :=
  (ts.map treeExp).sum

/-- Per-feature attribution of the ensemble. -/
def ensembleAttr (ts : List DTree) (x : ℕ → ℚ) (i : ℕ) : ℚ :=
  (ts.map (fun t => featAttr t x i)).sum

theorem pathDeltas_snd_sum (t : DTree) (x : ℕ → ℚ) :
    ((pathDeltas t x).map Prod.snd).sum = treeEval t x - treeExp t := by
  induction t with
  | leaf v => simp [pathDeltas, treeEval, treeExp]
  | node f thr w l r ihl ihr =>
      by_cases h : x f ≤ thr
      · simp only [pathDeltas, if_pos h, List.map_cons, List.sum_cons, ihl,
          treeEval, treeExp]
        ring
      · simp only [pathDeltas, if_neg h, List.map_cons, List.sum_cons, ihr,
          treeEval, treeExp]
        ring

theorem sum_buckets (L : List (ℕ × ℚ)) (n : ℕ) (h : ∀ p ∈ L, p.1 < n) :
    ∑ i ∈ Finset.range n, ((L.filter (fun p => p.1 == i)).map Prod.snd).sum =
      (L.map Prod.snd).sum := by
  induction L with
  | nil => simp
  | cons p L ih =>
      have hp : p.1 ∈ Finset.range n := Finset.mem_range.mpr (h p (by simp))
      have hL : ∀ q ∈ L, q.1 < n := fun q hq => h q (by simp [hq])
      have step : ∀ i : ℕ,
          (((p :: L).filter (fun q => q.1 == i)).map Prod.snd).sum =
            (if p.1 = i then p.2 else 0) +
              ((L.filter (fun q => q.1 == i)).map Prod.snd).sum := by
        intro i
        by_cases hpi : p.1 = i
        · simp [List.filter_cons, hpi]
        · simp [List.filter_cons, hpi]
      calc
        ∑ i ∈ Finset.range n, (((p :: L).filter (fun q => q.1 == i)).map Prod.snd).sum
            = ∑ i ∈ Finset.range n, ((if p.1 = i then p.2 else 0) +
                ((L.filter (fun q => q.1 == i)).map Prod.snd).sum) := by
              exact Finset.sum_congr rfl (fun i _ => step i)
        _ = (∑ i ∈ Finset.range n, (if p.1 = i then p.2 else 0)) +
              ∑ i ∈ Finset.range n, ((L.filter (fun q => q.1 == i)).map Prod.snd).sum := by
              exact Finset.sum_add_distrib
        _ = p.2 + (L.map Prod.snd).sum := by
              rw [ih hL, Finset.sum_ite_eq (Finset.range n) p.1 (fun _ => p.2), if_pos hp]
        _ = ((p :: L).map Prod.snd).sum := by simp

theorem pathDeltas_featBound {t : DTree} {n : ℕ} (h : featBound t n = true) (x : ℕ → ℚ) :
    ∀ p ∈ pathDeltas t x, p.1 < n := by
  induction t with
  | leaf v => simp [pathDeltas]
  | node f thr w l r ihl ihr =>
      simp only [featBound, Bool.and_eq_true, decide_eq_true_eq] at h
      by_cases hx : x f ≤ thr
      · simp only [pathDeltas, if_pos hx, List.mem_cons]
        rintro p (rfl | hp)
        · exact h.1.1
        · exact ihl h.1.2 p hp
      · simp only [pathDeltas, if_neg hx, List.mem_cons]
        rintro p (rfl | hp)
        · exact h.1.1
        · exact ihr h.2 p hp

theorem tree_local_accuracy (t : DTree) (n : ℕ) (x : ℕ → ℚ)
    (h : featBound t n = true) :
    ∑ i ∈ Finset.range n, featAttr t x i = treeEval t x - treeExp t := by
  calc
    ∑ i ∈ Finset.range n, featAttr t x i
        = (((pathDeltas t x)).map Prod.snd).sum :=
          sum_buckets (pathDeltas t x) n (pathDeltas_featBound h x)
    _ = treeEval t x - treeExp t := pathDeltas_snd_sum t x

theorem ensemble_attr_sum (ts : List DTree) (n : ℕ) (x : ℕ → ℚ)
    (h : ∀ t ∈ ts, featBound t n = true) :
    ∑ i ∈ Finset.range n, ensembleAttr ts x i = ensembleEval ts x - ensembleExp ts := by
  induction ts with
  | nil => simp [ensembleAttr, ensembleEval, ensembleExp]
  | cons t ts ih =>
      have ht : featBound t n = true := h t (by simp)
      have hts : ∀ u ∈ ts, featBound u n = true := fun u hu => h u (by simp [hu])
      have expand : ∀ i : ℕ, ensembleAttr (t :: ts) x i = featAttr t x i + ensembleAttr ts x i := by
        intro i
        simp [ensembleAttr]
      calc
        ∑ i ∈ Finset.range n, ensembleAttr (t :: ts) x i
            = ∑ i ∈ Finset.range n, (featAttr t x i + ensembleAttr ts x i) :=
              Finset.sum_congr rfl (fun i _ => expand i)
        _ = (∑ i ∈ Finset.range n, featAttr t x i) +
              ∑ i ∈ Finset.range n, ensembleAttr ts x i := Finset.sum_add_distrib
        _ = (treeEval t x - treeExp t) + (ensembleEval ts x - ensembleExp ts) := by
              rw [tree_local_accuracy t n x ht, ih hts]
        _ = ensembleEval (t :: ts) x - ensembleExp (t :: ts) := by
              simp [ensembleEval, ensembleExp]
              ring

/-- The spec's worked ranking example:
`{"A": 0.5, "B": -0.8, "C": 0.3, "D": 0.1, "E": 0.05, "F": 0.9}`. -/
def exAttr : List (String × ℚ) :=
  [("A", mkRat 5 10), ("B", mkRat (-8) 10), ("C", mkRat 3 10),
   ("D", mkRat 1 10), ("E", mkRat 5 100), ("F", mkRat 9 10)]

/-- Claim C1: for every attribution mapping and every k > 0, the ranking
sorts the factors by unrounded absolute contribution magnitude in descending
order, keeps only the first k, breaks equal-magnitude ties stably by the
iteration order of the input mapping, and rounds each displayed contribution
to 4 decimal places only after the ranking is decided. -/
theorem claim_C1_ranking_policy (attr : List (String × ℚ)) (k : ℕ) (hk : 0 < k) :
    sortAbsDesc attr ~ attr ∧
    List.Sorted (fun a b : String × ℚ => |b.2| ≤ |a.2|) (rankTop attr k) ∧
    (∀ c : ℚ, (sortAbsDesc attr).filter (fun p => |p.2| = c) =
        attr.filter (fun p => |p.2| = c)) ∧
    rankTop attr k = (sortAbsDesc attr).take k ∧
    (rankTop attr k).length = min k attr.length ∧
    topFactors attr k = (rankTop attr k).map (fun p =>
      { feature := p.1
        contribution := round4 p.2
        impact := if 0 < p.2 then "Positive" else "Negative" }) := by
  refine ⟨perm_sortAbsDesc attr, ?_, filter_sortAbsDesc attr, rfl, ?_, rfl⟩
  · exact List.Pairwise.sublist (List.take_sublist k (sortAbsDesc attr))
      (sorted_sortAbsDesc attr)
  · simp [rankTop, List.length_take, (perm_sortAbsDesc attr).length_eq]

theorem claim_C1_witness :
    0 < 5 ∧
    (sortAbsDesc exAttr ~ exAttr ∧
      List.Sorted (fun a b : String × ℚ => |b.2| ≤ |a.2|) (rankTop exAttr 5) ∧
      (∀ c : ℚ, (sortAbsDesc exAttr).filter (fun p => |p.2| = c) =
          exAttr.filter (fun p => |p.2| = c)) ∧
      rankTop exAttr 5 = (sortAbsDesc exAttr).take 5 ∧
      (rankTop exAttr 5).length = min 5 exAttr.length ∧
      topFactors exAttr 5 = (rankTop exAttr 5).map (fun p =>
        { feature := p.1
          contribution := round4 p.2
          impact := if 0 < p.2 then "Positive" else "Negative" })) ∧
    topFactors exAttr 5 =
      [{ feature := "F", contribution := mkRat 9 10, impact := "Positive" },
       { feature := "B", contribution := mkRat (-8) 10, impact := "Negative" },
       { feature := "A", contribution := mkRat 5 10, impact := "Positive" },
       { feature := "C", contribution := mkRat 3 10, impact := "Positive" },
       { feature := "D", contribution := mkRat 1 10, impact := "Positive" }] :=
  ⟨by decide, claim_C1_ranking_policy exAttr 5 (by decide), by decide⟩

/-- Claim C2 (code bug): the summary of `/batch_predict` divides
`approved / len(results)` with no guard, so the empty batch does not return
`approval_rate = 0` as the claim states — the `ZeroDivisionError` is caught
and surfaced as an HTTP 500, i.e. the whole call fails. -/
theorem claim_C2_empty_batch_faults {α : Type} (ctx : ModelCtx α) :
    batchPredict ctx ([] : List α) = Except.error ApiError.internalError := rfl

/-- Claim C3 counterexample: `ModelExplainer.get_feature_contributions`
(`src/explainability.py` 164-166) re-sorts the mapping by absolute value, so
its iteration order is not the feature-vector order. -/
theorem claim_C3_counterexample :
    (getFeatureContributions ["A", "B"] [mkRat 1 10, mkRat 5 10]).map Prod.fst = ["B", "A"] ∧
    (["B", "A"] : List String) ≠ ["A", "B"] := by
  decide

/-- Claim C3 (amended): the raw attribution dict built by the API predict
path has exactly one entry per feature name, in feature-vector order, and a
feature whose contribution is exactly 0.0 still appears; the explainability
module's `get_feature_contributions` keeps the same entries (zeros included)
but iterates them in descending absolute-magnitude order, not feature-vector
order. -/
theorem claim_C3_attribution_mapping (names : List String) (vals : List ℚ)
    (hlen : names.length = vals.length) (hnd : names.Nodup) :
    (mkContributions names (ShapOut.flat vals)).map Prod.fst = names ∧
    ((mkContributions names (ShapOut.flat vals)).map Prod.fst).Nodup ∧
    (∀ (i : ℕ) (hi : i < names.length) (hv : i < vals.length),
      (names.get ⟨i, hi⟩, vals.get ⟨i, hv⟩) ∈ mkContributions names (ShapOut.flat vals)) ∧
    getFeatureContributions names vals ~ names.zip vals ∧
    (getFeatureContributions names vals).map Prod.fst ~ names := by
  have hfst : (names.zip vals).map Prod.fst = names :=
    List.map_fst_zip names vals hlen.le
  have hmk : mkContributions names (ShapOut.flat vals) = names.zip vals := rfl
  refine ⟨by rw [hmk, hfst], by rw [hmk, hfst]; exact hnd, ?_, ?_, ?_⟩
  · intro i hi hv
    rw [hmk]
    have hz : i < (names.zip vals).length := by
      simp only [List.length_zip]
      omega
    have h1 : (names.zip vals).get ⟨i, hz⟩ = (names.get ⟨i, hi⟩, vals.get ⟨i, hv⟩) := by
      simp [List.get_zip]
    rw [← h1]
    exact List.get_mem _ _ _
  · exact perm_sortAbsDesc (names.zip vals)
  · have h2 := (perm_sortAbsDesc (names.zip vals)).map Prod.fst
    rwa [hfst] at h2

theorem claim_C3_witness :
    (["A", "B", "Z"] : List String).length = ([mkRat 5 10, mkRat (-2) 10, 0] : List ℚ).length ∧
    (["A", "B", "Z"] : List String).Nodup ∧
    ((mkContributions ["A", "B", "Z"] (ShapOut.flat [mkRat 5 10, mkRat (-2) 10, 0])).map Prod.fst
        = ["A", "B", "Z"] ∧
      ((mkContributions ["A", "B", "Z"] (ShapOut.flat [mkRat 5 10, mkRat (-2) 10, 0])).map Prod.fst).Nodup ∧
      (∀ (i : ℕ) (hi : i < (["A", "B", "Z"] : List String).length)
          (hv : i < ([mkRat 5 10, mkRat (-2) 10, 0] : List ℚ).length),
        ((["A", "B", "Z"] : List String).get ⟨i, hi⟩,
            ([mkRat 5 10, mkRat (-2) 10, 0] : List ℚ).get ⟨i, hv⟩) ∈
          mkContributions ["A", "B", "Z"] (ShapOut.flat [mkRat 5 10, mkRat (-2) 10, 0])) ∧
      getFeatureContributions ["A", "B", "Z"] [mkRat 5 10, mkRat (-2) 10, 0] ~
        (["A", "B", "Z"] : List String).zip ([mkRat 5 10, mkRat (-2) 10, 0] : List ℚ) ∧
      (getFeatureContributions ["A", "B", "Z"] [mkRat 5 10, mkRat (-2) 10, 0]).map Prod.fst ~
        ["A", "B", "Z"]) :=
  ⟨by decide, by decide,
    claim_C3_attribution_mapping ["A", "B", "Z"] [mkRat 5 10, mkRat (-2) 10, 0] (by decide) (by decide)⟩

/-- Claim C4: every ranked factor's impact label is "Positive" exactly when
its (unrounded) contribution is strictly positive and "Negative" otherwise;
a contribution of exactly 0.0 is labeled "Negative". -/
theorem claim_C4_impact_labels (attr : List (String × ℚ)) (k : ℕ) (f : RankedFactor)
    (hf : f ∈ topFactors attr k) :
    ∃ p, p ∈ rankTop attr k ∧ f = mkFactor p ∧
      (f.impact = "Positive" ↔ 0 < p.2) ∧ (f.impact = "Negative" ↔ p.2 ≤ 0) := by
  obtain ⟨p, hp, rfl⟩ := List.mem_map.mp hf
  have hne : ("Negative" : String) ≠ "Positive" := by decide
  refine ⟨p, hp, rfl, ?_, ?_⟩
  · by_cases h : 0 < p.2
    · simp [mkFactor, h]
    · simp [mkFactor, h, hne]
  · by_cases h : 0 < p.2
    · simp [mkFactor, h, hne.symm, not_le.mpr h]
    · simp [mkFactor, h, not_lt.mp h]

theorem claim_C4_witness :
    mkFactor ("Z", (0 : ℚ)) ∈ topFactors [("Z", (0 : ℚ))] 1 ∧
    (∃ p, p ∈ rankTop [("Z", (0 : ℚ))] 1 ∧ mkFactor ("Z", (0 : ℚ)) = mkFactor p ∧
      ((mkFactor ("Z", (0 : ℚ))).impact = "Positive" ↔ 0 < p.2) ∧
      ((mkFactor ("Z", (0 : ℚ))).impact = "Negative" ↔ p.2 ≤ 0)) ∧
    (mkFactor ("Z", (0 : ℚ))).impact = "Negative" :=
  ⟨by decide,
    claim_C4_impact_labels [("Z", 0)] 1 (mkFactor ("Z", 0)) (by decide),
    by decide⟩

/-- A three-feature attribution used to exercise the k-validation boundary. -/
def exAttrSmall : List (String × ℚ) :=
  [("A", mkRat 5 10), ("B", mkRat (-2) 10), ("C", 0)]

/-- Claim C5: `rank` fails with `InvalidK` for every k ≤ 0, and when the
attribution has fewer features than k it succeeds and returns exactly all the
features — no padding, no error. -/
theorem claim_C5_rank_validation :
    (∀ (attr : List (String × ℚ)) (k : ℤ), k ≤ 0 →
      rank attr k = Except.error ApiError.invalidK) ∧
    (∀ (attr : List (String × ℚ)) (k : ℤ), 0 < k → (attr.length : ℤ) < k →
      rank attr k = Except.ok (topFactors attr k.toNat) ∧
      (topFactors attr k.toNat).length = attr.length ∧
      (rankTop attr k.toNat).map Prod.fst ~ attr.map Prod.fst) := by
  constructor
  · intro attr k hk
    rw [rank, if_pos hk]
  · intro attr k hk hlen
    have hk2 : ¬ k ≤ 0 := not_le.mpr hk
    have hlen2 : attr.length ≤ k.toNat := by omega
    have hsort : (sortAbsDesc attr).length = attr.length :=
      (perm_sortAbsDesc attr).length_eq
    have hall : rankTop attr k.toNat = sortAbsDesc attr := by
      rw [rankTop, List.take_of_length_le (by rw [hsort]; exact hlen2)]
    refine ⟨by rw [rank, if_neg hk2], ?_, ?_⟩
    · rw [topFactors, List.length_map, hall, hsort]
    · rw [hall]
      exact (perm_sortAbsDesc attr).map Prod.fst

theorem claim_C5_witness :
    rank exAttrSmall 0 = Except.error ApiError.invalidK ∧
    rank exAttrSmall (-1) = Except.error ApiError.invalidK ∧
    (rank exAttrSmall 5 = Except.ok (topFactors exAttrSmall (5 : ℤ).toNat) ∧
      (topFactors exAttrSmall (5 : ℤ).toNat).length = exAttrSmall.length ∧
      (rankTop exAttrSmall (5 : ℤ).toNat).map Prod.fst ~ exAttrSmall.map Prod.fst) :=
  ⟨claim_C5_rank_validation.1 exAttrSmall 0 (by decide),
   claim_C5_rank_validation.1 exAttrSmall (-1) (by decide),
   claim_C5_rank_validation.2 exAttrSmall 5 (by decide) (by decide)⟩

/-- Claim C6: a transformed vector whose dimensionality disagrees with the
ensemble's trained feature count makes the prediction fail with the
feature-mismatch attribution error instead of producing a result. -/
theorem claim_C6_feature_mismatch {α : Type} (ctx : ModelCtx α) (a : α)
    (h : (ctx.transform a).length ≠ ctx.nFeatures) :
    predictHandler ctx a = Except.error ApiError.featureMismatch := by
  rw [predictHandler]
  simp only [shapCompute, if_neg h]

/-- A context whose transform emits a vector of the wrong length. -/
def badCtx : ModelCtx Unit :=
  { nFeatures := 2
    featureNames := ["A", "B"]
    transform := fun _ => [1]
    predictLabel := fun _ => 1
    predictProba := fun _ => mkRat 1 2
    shapRaw := fun _ => ShapOut.flat [0, 0] }

theorem claim_C6_witness :
    (badCtx.transform ()).length ≠ badCtx.nFeatures ∧
    predictHandler badCtx () = Except.error ApiError.featureMismatch :=
  ⟨by decide, claim_C6_feature_mismatch badCtx () (by decide)⟩

theorem zip_get_some {α β : Type} (l1 : List α) (l2 : List β) (i : ℕ) (a : α) (b : β)
    (h1 : l1.get? i = some a) (h2 : l2.get? i = some b) :
    (l1.zip l2).get? i = some (a, b) := by
  induction l1 generalizing l2 i with
  | nil => simp at h1
  | cons x xs ih =>
      cases l2 with
      | nil => simp at h2
      | cons y ys =>
          cases i with
          | zero =>
              simp only [List.get?] at h1 h2
              cases h1
              cases h2
              rfl
          | succ j =>
              simp only [List.get?] at h1 h2
              simpa [List.zip_cons_cons] using ih ys j h1 h2

/-- Claim C7: with per-class-shaped attribution values, the contribution
mapping is computed from the index-0 class slice alone — it never depends on
the other class slices (no flattening or averaging), and every value in the
mapping is that single slice's per-feature contribution. -/
theorem claim_C7_class_slice (names : List String) (rows rowsB : List (List ℚ))
    (h : rows.headD [] = rowsB.headD []) :
    mkContributions names (ShapOut.perClass rows) =
      mkContributions names (ShapOut.perClass rowsB) ∧
    (∀ (slice0 : List ℚ) (rest : List (List ℚ)), rows = slice0 :: rest →
      mkContributions names (ShapOut.perClass rows) = names.zip slice0) ∧
    (∀ (i : ℕ) (nm : String) (v : ℚ), names.get? i = some nm →
      (rows.headD []).get? i = some v →
      (mkContributions names (ShapOut.perClass rows)).get? i = some (nm, v)) := by
  refine ⟨?_, ?_, ?_⟩
  · rw [mkContributions, mkContributions, shapRowOf, shapRowOf, h]
  · rintro slice0 rest rfl
    rw [mkContributions, shapRowOf, List.headD_cons]
  · intro i nm v hn hv
    rw [mkContributions, shapRowOf]
    exact zip_get_some names (rows.headD []) i nm v hn hv

/-- Claim C8 helper: whether a row fails does not depend on its position. -/
theorem processRow_error_iff {α : Type} (ctx : ModelCtx α) (idx : ℕ) (a : α)
    (e : ApiError) :
    processRow ctx idx a = Except.error e ↔
      shapCompute ctx (ctx.transform a) = Except.error e := by
  cases hs : shapCompute ctx (ctx.transform a) with
  | error e2 => simp [processRow, hs]
  | ok sv => simp [processRow, hs]

theorem batchLoop_error_of_mem {α : Type} (ctx : ModelCtx α) (apps : List α)
    (hfail : ∃ a ∈ apps, ∃ e, shapCompute ctx (ctx.transform a) = Except.error e) :
    ∀ idx, ∃ e2, batchLoop ctx idx apps = Except.error e2 := by
  induction apps with
  | nil =>
      obtain ⟨a, ha, _⟩ := hfail
      exact absurd ha (List.not_mem_nil a)
  | cons b rest ih =>
      intro idx
      obtain ⟨a, ha, e, he⟩ := hfail
      cases hpb : processRow ctx idx b with
      | error eb => exact ⟨eb, by rw [batchLoop, hpb]⟩
      | ok r =>
          rcases List.mem_cons.mp ha with rfl | ha2
          · exact absurd hpb (by rw [(processRow_error_iff ctx idx a e).mpr he]; simp)
          · obtain ⟨e2, h2⟩ := ih ⟨a, ha2, e, he⟩ (idx + 1)
            exact ⟨e2, by rw [batchLoop, hpb, h2]⟩

/-- Claim C8: if any row of a batch fails, the whole batch call fails — no
partial result sequence is returned and no row is silently dropped. -/
theorem claim_C8_whole_batch_failure {α : Type} (ctx : ModelCtx α) (apps : List α)
    (h : ∃ a ∈ apps, ∃ e, processRow ctx 0 a = Except.error e) :
    ∃ e2, batchPredict ctx apps = Except.error e2 := by
  have hfail : ∃ a ∈ apps, ∃ e, shapCompute ctx (ctx.transform a) = Except.error e := by
    obtain ⟨a, ha, e, he⟩ := h
    exact ⟨a, ha, e, (processRow_error_iff ctx 0 a e).mp he⟩
  obtain ⟨e2, h2⟩ := batchLoop_error_of_mem ctx apps hfail 0
  exact ⟨e2, by rw [batchPredict, h2]⟩

theorem claim_C8_witness :
    (∃ a ∈ [()], ∃ e, processRow badCtx 0 a = Except.error e) ∧
    (∃ e2, batchPredict badCtx [()] = Except.error e2) :=
  ⟨⟨(), by simp, ApiError.featureMismatch, rfl⟩,
   claim_C8_whole_batch_failure badCtx [()]
     ⟨(), by simp, ApiError.featureMismatch, rfl⟩⟩

theorem claim_C7_witness :
    (([[(1 : ℚ), 2], [3, 4]] : List (List ℚ)).headD [] =
      ([[(1 : ℚ), 2]] : List (List ℚ)).headD []) ∧
    (mkContributions ["A", "B"] (ShapOut.perClass [[(1 : ℚ), 2], [3, 4]]) =
        mkContributions ["A", "B"] (ShapOut.perClass [[(1 : ℚ), 2]]) ∧
      (∀ (slice0 : List ℚ) (rest : List (List ℚ)),
        ([[(1 : ℚ), 2], [3, 4]] : List (List ℚ)) = slice0 :: rest →
        mkContributions ["A", "B"] (ShapOut.perClass [[(1 : ℚ), 2], [3, 4]]) =
          (["A", "B"] : List String).zip slice0) ∧
      (∀ (i : ℕ) (nm : String) (v : ℚ),
        (["A", "B"] : List String).get? i = some nm →
        (([[(1 : ℚ), 2], [3, 4]] : List (List ℚ)).headD []).get? i = some v →
        (mkContributions ["A", "B"] (ShapOut.perClass [[(1 : ℚ), 2], [3, 4]])).get? i =
          some (nm, v))) :=
  ⟨rfl, claim_C7_class_slice ["A", "B"] [[(1 : ℚ), 2], [3, 4]] [[(1 : ℚ), 2]] rfl⟩

/-- Claim C9 (modelled from the spec, §4.1): the tree-structure-aware
additive attribution satisfies local accuracy — the per-feature contributions
sum, together with the baseline expectation, to the ensemble's raw output,
within the spec's 1e-4 absolute tolerance (here the identity is exact). -/
theorem claim_C9_local_accuracy (ts : List DTree) (n : ℕ) (x : ℕ → ℚ)
    (h : ∀ t ∈ ts, featBound t n = true) :
    |(∑ i ∈ Finset.range n, ensembleAttr ts x i) + ensembleExp ts - ensembleEval ts x|
      ≤ 1 / 10000 := by
  rw [ensemble_attr_sum ts n x h]
  have h0 : ensembleEval ts x - ensembleExp ts + ensembleExp ts - ensembleEval ts x = 0 := by
    ring
  rw [h0, abs_zero]
  norm_num

/-- A one-split tree over a single feature, for the local-accuracy witness. -/
def exTree : DTree :=
  DTree.node 0 (mkRat 1 2) (mkRat 1 2) (DTree.leaf 0) (DTree.leaf 1)

theorem claim_C9_witness :
    (∀ t ∈ [exTree], featBound t 1 = true) ∧
    |(∑ i ∈ Finset.range 1, ensembleAttr [exTree] (fun _ => 0) i) +
        ensembleExp [exTree] - ensembleEval [exTree] (fun _ => 0)| ≤ 1 / 10000 :=
  ⟨by decide, claim_C9_local_accuracy [exTree] 1 (fun _ => 0) (by decide)⟩

/-- Claim C10 helper: one batch row computes exactly the single-row handler's
payload, re-packaged with the positional application id. -/
theorem processRow_map_predictHandler {α : Type} (ctx : ModelCtx α) (idx : ℕ) (a : α) :
    processRow ctx idx a = (predictHandler ctx a).map (fun s =>
      { applicationId := idx + 1
        prediction := s.prediction
        probability := s.probability
        topFactors := s.topFactors }) := by
  cases hs : shapCompute ctx (ctx.transform a) with
  | error e => simp [processRow, predictHandler, hs, Except.map]
  | ok sv => simp [processRow, predictHandler, hs, Except.map]

theorem batchLoop_ok_get {α : Type} (ctx : ModelCtx α) :
    ∀ (apps : List α) (idx : ℕ) (rs : List BatchRecord),
      batchLoop ctx idx apps = Except.ok rs →
      rs.length = apps.length ∧
      ∀ (i : ℕ) (a : α), apps.get? i = some a →
        ∃ r, rs.get? i = some r ∧ processRow ctx (idx + i) a = Except.ok r := by
  intro apps
  induction apps with
  | nil =>
      intro idx rs h
      simp only [batchLoop] at h
      cases h
      exact ⟨rfl, by intro i a ha; simp at ha⟩
  | cons b rest ih =>
      intro idx rs h
      cases hpb : processRow ctx idx b with
      | error e => rw [batchLoop, hpb] at h; cases h
      | ok r =>
          cases hl : batchLoop ctx (idx + 1) rest with
          | error e => rw [batchLoop, hpb, hl] at h; cases h
          | ok rs2 =>
              rw [batchLoop, hpb, hl] at h
              cases h
              obtain ⟨hlen, hget⟩ := ih (idx + 1) rs2 hl
              refine ⟨by simp [hlen], ?_⟩
              intro i a ha
              cases i with
              | zero =>
                  simp only [List.get?] at ha
                  cases ha
                  exact ⟨r, rfl, by simpa using hpb⟩
              | succ j =>
                  simp only [List.get?] at ha ⊢
                  obtain ⟨r2, hr2, hp2⟩ := hget j a ha
                  refine ⟨r2, hr2, ?_⟩
                  have hidx : idx + (j + 1) = (idx + 1) + j := by omega
                  rw [hidx]
                  exact hp2

/-- Claim C10: the single-row path and the batch path agree — a row of a
successful batch carries the same prediction label, the same rounded
probability and the same top-factor sequence as submitting that application
to the single-prediction handler, and its application id is its 1-based
position. -/
theorem claim_C10_single_batch_equiv {α : Type} (ctx : ModelCtx α) (apps : List α)
    (res : BatchResponse) (hb : batchPredict ctx apps = Except.ok res)
    (i : ℕ) (a : α) (ha : apps.get? i = some a) :
    ∃ r s, res.predictions.get? i = some r ∧ predictHandler ctx a = Except.ok s ∧
      r.applicationId = i + 1 ∧ r.prediction = s.prediction ∧
      r.probability = s.probability ∧ r.topFactors = s.topFactors := by
  cases hl : batchLoop ctx 0 apps with
  | error e => rw [batchPredict, hl] at hb; cases hb
  | ok results =>
      rw [batchPredict, hl] at hb
      dsimp only at hb
      by_cases h0 : results.length = 0
      · rw [if_pos h0] at hb; cases hb
      · rw [if_neg h0] at hb
        have hres : res.predictions = results := by cases hb; rfl
        obtain ⟨hlen, hget⟩ := batchLoop_ok_get ctx apps 0 results hl
        obtain ⟨r, hr, hpr⟩ := hget i a ha
        rw [processRow_map_predictHandler] at hpr
        cases hs : predictHandler ctx a with
        | error e => rw [hs] at hpr; cases hpr
        | ok s =>
            rw [hs] at hpr
            simp only [Except.map] at hpr
            have hr2 := Except.ok.inj hpr
            refine ⟨r, s, by rw [hres]; exact hr, rfl, ?_, ?_, ?_, ?_⟩ <;>
              rw [← hr2] <;> simp

/-- A loaded context over one feature, for the equivalence witness. -/
def okCtx : ModelCtx Unit :=
  { nFeatures := 1
    featureNames := ["A"]
    transform := fun _ => [5]
    predictLabel := fun _ => 1
    predictProba := fun _ => mkRat 1 2
    shapRaw := fun _ => ShapOut.flat [mkRat 3 4] }

/-- The record `/batch_predict` produces for the single `okCtx` application. -/
def okRecord : BatchRecord :=
  { applicationId := 1
    prediction := "Approved"
    probability := round4 (mkRat 1 2)
    topFactors := topFactors (mkContributions ["A"] (ShapOut.flat [mkRat 3 4])) 5 }

/-- The full `/batch_predict` response for the singleton `okCtx` batch. -/
def okResponse : BatchResponse :=
  { predictions := [okRecord]
    totalProcessed := 1
    approved := 1
    rejected := 0
    approvalRatePercent := round2 (((1 : ℕ) : ℚ) / ((1 : ℕ) : ℚ) * 100) }

theorem claim_C10_witness :
    batchPredict okCtx [()] = Except.ok okResponse ∧
    ([()] : List Unit).get? 0 = some () ∧
    (∃ r s, okResponse.predictions.get? 0 = some r ∧
      predictHandler okCtx () = Except.ok s ∧
      r.applicationId = 0 + 1 ∧ r.prediction = s.prediction ∧
      r.probability = s.probability ∧ r.topFactors = s.topFactors) :=
  ⟨rfl, rfl, claim_C10_single_batch_equiv okCtx [()] okResponse rfl 0 () rfl⟩

end LoanXAI
